import Mathlib

/-!
Shallow embedding of the Ramses CL Arbitrum ATQ module (`src/main.mts`) and
verification of its specification.  JS strings are modelled as `List Char`;
the finite JS numbers arising in this pipeline (decimal literals and their
quotients by powers of ten) are modelled exactly by a decimal mantissa and
exponent, interpreted into `ℚ` for the semantic statements.
-/

namespace RamsesCL

/-- JS strings, modelled as lists of characters. -/
abbrev Str := List Char

/-- Model of `s.slice(0, e)` on a JS string: a negative end index counts from
the end of the string and the result is clamped to the string's bounds. -/
def jsSliceTo (s : Str) (e : Int) : Str :=
  if e < 0 then s.take ((s.length : Int) + e).toNat else s.take e.toNat

/-- JS whitespace (as skipped by `Number`, `parseFloat` and `trim`):
tab, LF, VT, FF, CR, space, NBSP, BOM. -/
def jsWhitespace (c : Char) : Bool :=
  c = ' ' || c = Char.ofNat 9 || c = Char.ofNat 10 || c = Char.ofNat 11 ||
  c = Char.ofNat 12 || c = Char.ofNat 13 || c = Char.ofNat 160 || c = Char.ofNat 65279

/-- Model of `String.prototype.trim`. -/
def jsTrim (s : Str) : Str :=
  ((s.dropWhile jsWhitespace).reverse.dropWhile jsWhitespace).reverse

def isDigitB (c : Char) : Bool := '0' ≤ c && c ≤ '9'

def digitVal (c : Char) : Nat := c.toNat - '0'.toNat

def digitsToNat (s : Str) : Nat := s.foldl (fun a c => 10 * a + digitVal c) 0

/-- Split a leading run of decimal digits from the rest. -/
def splitDigits (s : Str) : Str × Str := (s.takeWhile isDigitB, s.dropWhile isDigitB)

/-- Decimal-digit rendering of a natural number, with fuel for structural
recursion (the fuel `n + 1` always suffices). -/
def natToDigitsAux : Nat → Nat → Str
  | 0, _ => []
  | fuel + 1, n =>
    if n < 10 then [Nat.digitChar n]
    else natToDigitsAux fuel (n / 10) ++ [Nat.digitChar (n % 10)]

def natToDigits (n : Nat) : Str := natToDigitsAux (n + 1) n

/-- Exactly two decimal digits, for the hundredths part of `toFixed(2)`. -/
def twoDigits (m : Nat) : Str := [Nat.digitChar (m / 10), Nat.digitChar (m % 10)]

/-- Exact decimal representation of the finite JS numbers used here:
the value is `(-1 if neg) * mant * 10 ^ exp`. -/
structure DecNum where
  neg : Bool
  mant : Nat
  exp : Int
deriving DecidableEq

/-- Interpretation of a decimal number as a rational. -/
def DecNum.toRat (d : DecNum) : ℚ :=
  (if d.neg then -1 else 1) * (d.mant : ℚ) * (10 : ℚ) ^ d.exp

/-- Model of `x / 10000` on the decimal representation. -/
def DecNum.div10000 (d : DecNum) : DecNum := { d with exp := d.exp - 4 }

/-- The hundredths integer `⌊|x| * 100 + 1/2⌋` of a decimal number, computed
exactly (ECMAScript `toFixed` rounds to the nearest hundredth, ties away
from zero on the magnitude). -/
def DecNum.hundredths (d : DecNum) : Nat :=
  let e2 := d.exp + 2
  if 0 ≤ e2 then d.mant * 10 ^ e2.toNat
  else (2 * d.mant + 10 ^ (-e2).toNat) / (2 * 10 ^ (-e2).toNat)

/-- Model of `x.toFixed(2)` for a finite decimal value, following the
ECMAScript algorithm: emit `-` only for strictly negative values, then the
magnitude rounded to hundredths with exactly two fraction digits. -/
def DecNum.toFixed2 (d : DecNum) : Str :=
  let n := d.hundredths
  (if d.neg ∧ d.mant ≠ 0 then ['-'] else []) ++
    natToDigits (n / 100) ++ ['.'] ++ twoDigits (n % 100)

/-- Exponent part `[eE][+-]?digits` at the head of the string, consumed only
when at least one exponent digit follows (as in JS `parseFloat`); the value
is 0 when the exponent part is absent. -/
def parseExpPart (s : Str) : Int :=
  match s with
  | [] => 0
  | c :: rest =>
    if c = 'e' || c = 'E' then
      match rest with
      | '+' :: r2 => if (r2.takeWhile isDigitB) = [] then 0 else (digitsToNat (r2.takeWhile isDigitB) : Int)
      | '-' :: r2 => if (r2.takeWhile isDigitB) = [] then 0 else -(digitsToNat (r2.takeWhile isDigitB) : Int)
      | r2 => if (r2.takeWhile isDigitB) = [] then 0 else (digitsToNat (r2.takeWhile isDigitB) : Int)
    else 0

/-- Model of JS `parseFloat`: skip leading whitespace, optional sign, then
the longest prefix matching `digits [. digits]` or `. digits` with an
optional exponent; `none` models NaN (no digits found).  The `Infinity`
literal is not modelled; no value in this pipeline produces it. -/
def parseFloatD (s : Str) : Option DecNum :=
  let s1 := s.dropWhile jsWhitespace
  let signAndRest : Bool × Str :=
    match s1 with
    | '-' :: r => (true, r)
    | '+' :: r => (false, r)
    | r => (false, r)
  let (ip, r1) := splitDigits signAndRest.2
  let fracAndRest : Str × Str :=
    match r1 with
    | '.' :: rdot => splitDigits rdot
    | _ => ([], r1)
  if ip = [] && fracAndRest.1 = [] then none
  else
    let ex := parseExpPart fracAndRest.2
    some ⟨signAndRest.1, digitsToNat (ip ++ fracAndRest.1), ex - fracAndRest.1.length⟩

def isHexDigitB (c : Char) : Bool :=
  ('0' ≤ c && c ≤ '9') || ('a' ≤ c && c ≤ 'f') || ('A' ≤ c && c ≤ 'F')

def hexVal (c : Char) : Nat :=
  if '0' ≤ c && c ≤ '9' then c.toNat - '0'.toNat
  else if 'a' ≤ c && c ≤ 'f' then c.toNat - 'a'.toNat + 10
  else if 'A' ≤ c && c ≤ 'F' then c.toNat - 'A'.toNat + 10
  else 0

def hexDigitsToNat (s : Str) : Nat := s.foldl (fun a c => 16 * a + hexVal c) 0

def isOctDigitB (c : Char) : Bool := '0' ≤ c && c ≤ '7'

def octDigitsToNat (s : Str) : Nat := s.foldl (fun a c => 8 * a + digitVal c) 0

def isBinDigitB (c : Char) : Bool := c = '0' || c = '1'

def binDigitsToNat (s : Str) : Nat := s.foldl (fun a c => 2 * a + digitVal c) 0

/-- A full-string decimal literal `digits [. digits] [exp]` or `. digits [exp]`
(no sign), as accepted by JS `Number`; `none` when the string is not wholly
such a literal. -/
def parseDecFull (s : Str) : Option DecNum :=
  let (ip, r1) := splitDigits s
  let fracAndRest : Str × Str :=
    match r1 with
    | '.' :: rdot => splitDigits rdot
    | _ => ([], r1)
  if ip = [] && fracAndRest.1 = [] then none
  else
    match fracAndRest.2 with
    | [] => some ⟨false, digitsToNat (ip ++ fracAndRest.1), -(fracAndRest.1.length : Int)⟩
    | c :: rest =>
      if c = 'e' || c = 'E' then
        let signAndDigits : Bool × Str :=
          match rest with
          | '+' :: r2 => (false, r2)
          | '-' :: r2 => (true, r2)
          | r2 => (false, r2)
        let (ed, rem) := splitDigits signAndDigits.2
        if ed = [] || rem ≠ [] then none
        else
          let ex : Int := if signAndDigits.1 then -(digitsToNat ed : Int) else (digitsToNat ed : Int)
          some ⟨false, digitsToNat (ip ++ fracAndRest.1), ex - fracAndRest.1.length⟩
      else none

def negDec (d : DecNum) : DecNum := { d with neg := true }

/-- Full-string signed decimal literal. -/
def signedDecFull (t : Str) : Option DecNum :=
  match t with
  | '-' :: r => (parseDecFull r).map negDec
  | '+' :: r => parseDecFull r
  | r => parseDecFull r

/-- Model of JS `Number(string)`: trim, the empty string is 0, `0x`/`0o`/`0b`
prefixed integers, otherwise a full-string signed decimal literal; `none`
models NaN (and the unmodelled `Infinity` literals, which are likewise
unequal to every rational). -/
def jsNumberD (s : Str) : Option DecNum :=
  let t := jsTrim s
  match t with
  | [] => some ⟨false, 0, 0⟩
  | '0' :: c :: r =>
    if c = 'x' || c = 'X' then
      (if r ≠ [] && r.all isHexDigitB then some ⟨false, hexDigitsToNat r, 0⟩ else none)
    else if c = 'o' || c = 'O' then
      (if r ≠ [] && r.all isOctDigitB then some ⟨false, octDigitsToNat r, 0⟩ else none)
    else if c = 'b' || c = 'B' then
      (if r ≠ [] && r.all isBinDigitB then some ⟨false, binDigitsToNat r, 0⟩ else none)
    else signedDecFull t
  | _ => signedDecFull t

/-- Decide whether the value of a decimal number equals the integer `n`
(the strict comparison `Number(chainId) === n`). -/
def DecNum.eqNat (d : DecNum) (n : Nat) : Bool :=
  (if 0 ≤ d.exp then d.mant * 10 ^ d.exp.toNat == n
   else n * 10 ^ (-d.exp).toNat == d.mant) &&
  (!d.neg || d.mant == 0)

/-- Model of the guard `Number(chainId) === 42161` (line 217;
NaN compares unequal). -/
def jsNumber42161 (chainId : Str) : Bool :=
  match jsNumberD chainId with
  | some d => d.eqNat 42161
  | none => false

/-- A token sub-record as delivered by the subgraph (`interface Token`). -/
structure Token where
  id : Str
  name : Str
  symbol : Str
  decimals : Str
deriving DecidableEq

/-- A pool record (`interface Pool`).  The token sub-records are guarded at
runtime by `!token0 || !token1`, so they are modelled as optional, as is the
`tickSpacing?` field. -/
structure Pool where
  id : Str
  feeTier : Str
  liquidity : Str
  sqrtPrice : Str
  tickSpacing : Option Str
  createdAtTimestamp : Nat
  token0 : Option Token
  token1 : Option Token
deriving DecidableEq

/-- The output record; the fields model the JSON keys `Contract Address`,
`Public Name Tag`, `Project Name`, `UI/Website Link` and `Public Note`. -/
structure ContractTag where
  contractAddress : Str
  publicNameTag : Str
  projectName : Str
  uiWebsiteLink : Str
  publicNote : Str
deriving DecidableEq

/-- Does the string begin with `[^>]+>`, i.e. at least one character other
than `>` and then a `>`?  Helper for the regex `<[^>]+>`. -/
def closesSpan (s : Str) : Bool :=
  match s with
  | [] => false
  | c :: rest => c ≠ '>' && rest.contains '>'

/-- Model of `containsHtmlOrMarkdown` (lines 73-75): the regex `/<[^>]+>/`
matches, i.e. some `<` is followed by one or more non-`>` characters and
then a `>`. -/
def containsHtmlOrMarkdown : Str → Bool
  | [] => false
  | c :: rest => (c = '<' && closesSpan rest) || containsHtmlOrMarkdown rest

/-- Hex digit pairs to bytes (`Buffer.from(hex, "hex")`). -/
def hexToBytes : Str → List Nat
  | a :: b :: rest => (16 * hexVal a + hexVal b) :: hexToBytes rest
  | _ => []

def replChar : Char := Char.ofNat 0xFFFD

def isCont (b : Nat) : Bool := 0x80 ≤ b && b < 0xC0

/-- Valid first continuation byte of a three-byte sequence led by `b`
(excludes overlong encodings and surrogates). -/
def contOK3 (b b1 : Nat) : Bool :=
  isCont b1 && (b ≠ 0xE0 || 0xA0 ≤ b1) && (b ≠ 0xED || b1 < 0xA0)

/-- Valid first continuation byte of a four-byte sequence led by `b`
(excludes overlong encodings and values beyond U+10FFFF). -/
def contOK4 (b b1 : Nat) : Bool :=
  isCont b1 && (b ≠ 0xF0 || 0x90 ≤ b1) && (b ≠ 0xF4 || b1 < 0x90)

/-- UTF-8 decoding with U+FFFD replacement on errors (maximal-subpart
recovery, as in `buffer.toString("utf8")`), with fuel for structural
recursion; every step consumes at least one byte. -/
def utf8DecodeAux : Nat → List Nat → Str
  | 0, _ => []
  | fuel + 1, bs =>
    match bs with
    | [] => []
    | b :: rest =>
      if b < 0x80 then Char.ofNat b :: utf8DecodeAux fuel rest
      else if b < 0xC2 then replChar :: utf8DecodeAux fuel rest
      else if b < 0xE0 then
        match rest with
        | [] => [replChar]
        | b1 :: r1 =>
          if isCont b1 then
            Char.ofNat ((b - 0xC0) * 64 + (b1 - 0x80)) :: utf8DecodeAux fuel r1
          else replChar :: utf8DecodeAux fuel rest
      else if b < 0xF0 then
        match rest with
        | [] => [replChar]
        | b1 :: r1 =>
          if contOK3 b b1 then
            match r1 with
            | [] => [replChar]
            | b2 :: r2 =>
              if isCont b2 then
                Char.ofNat ((b - 0xE0) * 4096 + (b1 - 0x80) * 64 + (b2 - 0x80)) ::
                  utf8DecodeAux fuel r2
              else replChar :: utf8DecodeAux fuel r1
          else replChar :: utf8DecodeAux fuel rest
      else if b < 0xF5 then
        match rest with
        | [] => [replChar]
        | b1 :: r1 =>
          if contOK4 b b1 then
            match r1 with
            | [] => [replChar]
            | b2 :: r2 =>
              if isCont b2 then
                match r2 with
                | [] => [replChar]
                | b3 :: r3 =>
                  if isCont b3 then
                    Char.ofNat ((b - 0xF0) * 262144 + (b1 - 0x80) * 4096 +
                        (b2 - 0x80) * 64 + (b3 - 0x80)) :: utf8DecodeAux fuel r3
                  else replChar :: utf8DecodeAux fuel r2
              else replChar :: utf8DecodeAux fuel r1
          else replChar :: utf8DecodeAux fuel rest
      else replChar :: utf8DecodeAux fuel rest

def utf8Decode (bs : List Nat) : Str := utf8DecodeAux (bs.length + 1) bs

/-- Model of `cleanSymbol` (lines 95-104): a 64-hex-digit payload (with or
without `0x`) is decoded as UTF-8 with NULs stripped, any other input is
kept as is; then characters outside U+0002..U+007F are removed (this is the
range the source regex keeps, although its comment says "printable ASCII"),
the result is trimmed, and it is returned only when its length is in 2..32. -/
def cleanSymbol (raw : Str) : Str :=
  let hex := if raw.take 2 = ('0' :: ['x']) then raw.drop 2 else raw
  let raw1 :=
    if hex.length = 64 ∧ hex.all isHexDigitB then
      (utf8Decode (hexToBytes hex)).filter (fun c => c ≠ Char.ofNat 0)
    else raw
  let txt := jsTrim (raw1.filter (fun c => Char.ofNat 2 ≤ c && c.toNat ≤ 127))
  if 2 ≤ txt.length ∧ txt.length ≤ 32 then txt else []

/-- Proportional truncation of an over-budget symbol pair
(lines 157-167): reserve 6 characters for two ellipses, split the rest, and
append an ellipsis to each symbol that is strictly longer than its half.
`Math.ceil(half)` and `Math.floor(available - len0)` act on integers and are
kept as the identity. -/
def truncPair (symbol0 symbol1 : Str) (maxSymbolsLen : Int) : Str :=
  let available := maxSymbolsLen - 6
  let half := Int.fdiv available 2
  let len0 := half
  let len1 := available - len0
  (if (symbol0.length : Int) > len0 then jsSliceTo symbol0 len0 ++ ('.' :: ['.', '.']) else symbol0) ++
    ('/' :: []) ++
    (if (symbol1.length : Int) > len1 then jsSliceTo symbol1 len1 ++ ('.' :: ['.', '.']) else symbol1)

/-- The defensive clamp (lines 171-173): hard-truncate to 50 characters. -/
def clamp50 (t : Str) : Str := if 50 < t.length then jsSliceTo t 50 else t

/-- The label builder (lines 150-173) as a pure function of the two symbols
and the metadata suffix string. -/
def buildLabel (symbol0 symbol1 sfx : Str) : Str :=
  let maxSymbolsLen : Int := 50 - (sfx.length : Int) - 1
  let symbolsText := symbol0 ++ ('/' :: []) ++ symbol1
  let symbolsText2 :=
    if (symbolsText.length : Int) > maxSymbolsLen then truncPair symbol0 symbol1 maxSymbolsLen
    else symbolsText
  clamp50 (symbolsText2 ++ sfx)

/-- Model of `getFeePct` (lines 143-145): an empty `feeTier` string is falsy
and yields the empty string; otherwise `parseFloat`, division by 10000 and
`toFixed(2)` with a `%` appended (a non-numeric string yields `NaN%`). -/
def getFeePct (pool : Pool) : Str :=
  if pool.feeTier = [] then []
  else
    match parseFloatD pool.feeTier with
    | some d => d.div10000.toFixed2 ++ ('%' :: [])
    | none => ('N' :: ['a', 'N', '%'])

/-- The tick-spacing display value, `pool.tickSpacing ?? "N/A"`. -/
def tickOf (pool : Pool) : Str := pool.tickSpacing.getD ('N' :: ['/', 'A'])

/-- The fixed-format metadata suffix of the label (line 151). -/
def labelSuffix (pool : Pool) : Str :=
  " CL Pool (".toList ++ getFeePct pool ++ ", tick: ".toList ++ tickOf pool ++ (')' :: [])

def dfltToken : Token := ⟨[], [], [], []⟩

/-- Build the output tag for one valid pool (lines 146-181).  The token
accesses use a default token in the absent case, which is unreachable for
the pools kept by the validation pass. -/
def poolToTag (chainId : Str) (pool : Pool) : ContractTag :=
  let token0 := pool.token0.getD dfltToken
  let token1 := pool.token1.getD dfltToken
  { contractAddress := "eip155:".toList ++ chainId ++ (':' :: []) ++ pool.id
    publicNameTag := buildLabel token0.symbol token1.symbol (labelSuffix pool)
    projectName := "Ramses Concentrated Liquidity".toList
    uiWebsiteLink := "https://ramses.exchange".toList
    publicNote := "Ramses CL pool for ".toList ++ token0.symbol ++ " (".toList ++
      token0.name ++ ") / ".toList ++ token1.symbol ++ " (".toList ++ token1.name ++
      "), fee tier: ".toList ++ pool.feeTier ++ ", tick spacing: ".toList ++ tickOf pool }

/-- Is the token's name or symbol rejected by the markup check? -/
def tokenInvalid (t : Token) : Bool :=
  containsHtmlOrMarkdown t.name || containsHtmlOrMarkdown t.symbol

/-- The diagnostic entry pushed for a rejected token (lines 123, 126). -/
def diagEntry (t : Token) : Str := t.name ++ ", Symbol: ".toList ++ t.symbol

/-- Model of the validation `forEach` (lines 110-131): split a page into the
valid pools and the rejected-name log entries, preserving order. -/
def partitionPools : List Pool → List Pool × List Str
  | [] => ([], [])
  | pool :: rest =>
    match pool.token0, pool.token1 with
    | some t0, some t1 =>
      let inv0 := tokenInvalid t0
      let inv1 := tokenInvalid t1
      let vr := partitionPools rest
      if inv0 || inv1 then
        (vr.1, ((if inv0 then [diagEntry t0] else []) ++ (if inv1 then [diagEntry t1] else [])) ++ vr.2)
      else (pool :: vr.1, vr.2)
    | _, _ => partitionPools rest

/-- Model of `transformPoolsToTags` (lines 109-182): map the valid pools of
a page to tags. -/
def transformPoolsToTags (chainId : Str) (pools : List Pool) : List ContractTag :=
  (partitionPools pools).1.map (poolToTag chainId)

/-- The rejected-name diagnostics logged by `transformPoolsToTags`
(lines 134-139). -/
def rejectedNamesOf (pools : List Pool) : List Str :=
  (partitionPools pools).2

/-- Model of the stateful dedup `.filter` over `seenAddr` (lines 229-233):
keep a tag iff its address is unseen, recording kept addresses. -/
def dedupGo (seen : List Str) : List ContractTag → List ContractTag × List Str
  | [] => ([], seen)
  | t :: ts =>
    if t.contractAddress ∈ seen then dedupGo seen ts
    else
      let ks := dedupGo (t.contractAddress :: seen) ts
      (t :: ks.1, ks.2)

/-- The `createdAtTimestamp` of the last record of a page
(`pools[pools.length - 1]`, line 239). -/
def lastTs (pools : List Pool) : Nat :=
  match pools.getLast? with
  | some p => p.createdAtTimestamp
  | none => 0

/-- One `while` pass per page response (lines 225-250): transform the page,
dedup into the accumulator, count the call, and advance the cursor exactly
when the page held 1000 records.  The result also carries the number of
fetches made and the cursor passed to each fetch; `none` means the supplied
response list ran out while the loop would have continued. -/
def runLoop (chainId : Str) (responses : List (List Pool)) (cursor : Nat)
    (seen : List Str) (acc : List ContractTag) :
    Option (List ContractTag × Nat × List Nat) :=
  match responses with
  | [] => none
  | pools :: rest =>
    let ks := dedupGo seen (transformPoolsToTags chainId pools)
    let acc2 := acc ++ ks.1
    if pools.length = 1000 then
      match runLoop chainId rest (lastTs pools) ks.2 acc2 with
      | some (tags, calls, curs) => some (tags, calls + 1, cursor :: curs)
      | none => none
    else some (acc2, 1, [cursor])

/-- Outcome of one `returnTags` invocation over a list of page responses. -/
inductive RTResult where
  | unsupportedChain (msg : Str)
  | missingApiKey
  | ok (tags : List ContractTag) (calls : Nat) (cursors : List Nat)
  | needsMoreResponses
deriving DecidableEq

/-- The unsupported-chain error message (line 218). -/
def unsupportedMsg (chainId : Str) : Str :=
  "Unsupported Chain ID: ".toList ++ chainId ++ ". Only Arbitrum (42161) is supported.".toList

/-- Model of `TagService.returnTags` (lines 212-253): validate the chain id,
then the credential, then run the pagination loop from cursor 0 with an
empty accumulator and seen-set. -/
def returnTags (chainId apiKey : Str) (responses : List (List Pool)) : RTResult :=
  if jsNumber42161 chainId then
    if apiKey = [] then .missingApiKey
    else
      match runLoop chainId responses 0 [] [] with
      | some (tags, calls, curs) => .ok tags calls curs
      | none => .needsMoreResponses
  else .unsupportedChain (unsupportedMsg chainId)

/-- Model of `endpoint` (lines 9-16): a missing, empty, or `"dummy"` api key
yields the gateway URL with the literal `[api-key]` placeholder, otherwise
the key is substituted into the URL path segment. -/
def endpoint (apiKey : Option Str) : Str :=
  let pre := "https://gateway-arbitrum.network.thegraph.com/api/".toList
  let post := "/subgraphs/id/ATQTt3wRTgXy4canCh6t1yeczAz4ZuEkFQL2mrLXEMyQ".toList
  match apiKey with
  | none => pre ++ "[api-key]".toList ++ post
  | some k =>
    if k = [] ∨ k = "dummy".toList then pre ++ "[api-key]".toList ++ post
    else pre ++ k ++ post

/-! ## Spec-side reference definitions (from the specification's wording) -/

/-- Dedup keyed on the Contract Address exactly as the spec words the
policy: skip a tag whose address is already in the seen set, else add it to
the set and append the tag (first occurrence wins), preserving order. -/
def firstWins (seen : List Str) : List ContractTag → List ContractTag
  | [] => []
  | t :: ts =>
    if t.contractAddress ∈ seen then firstWins seen ts
    else t :: firstWins (t.contractAddress :: seen) ts

/-- Record-transformer acceptance as the spec states it: both token
sub-records present and neither token failing the markup check. -/
def keepPool (pool : Pool) : Bool :=
  match pool.token0, pool.token1 with
  | some t0, some t1 => !tokenInvalid t0 && !tokenInvalid t1
  | _, _ => false

/-- Diagnostic entries for one record as the spec states them: one entry per
markup-rejected token, and nothing for a record missing a token sub-record
(that rejection is silent). -/
def diagEntries (pool : Pool) : List Str :=
  match pool.token0, pool.token1 with
  | some t0, some t1 =>
    (if tokenInvalid t0 then [diagEntry t0] else []) ++
      (if tokenInvalid t1 then [diagEntry t1] else [])
  | _, _ => []

/-- The truncation rule exactly as claim C3 words it: 6 characters reserved
for two ellipses, the remaining budget split with the FIRST half rounded up
and the second half rounded down, each symbol cut to its half with an
ellipsis appended iff it was strictly longer than that half. -/
def claimTruncPair (symbol0 symbol1 : Str) (maxSymbolsLen : Int) : Str :=
  let available := maxSymbolsLen - 6
  let len0 := Int.fdiv (available + 1) 2
  let len1 := Int.fdiv available 2
  (if (symbol0.length : Int) > len0 then jsSliceTo symbol0 len0 ++ ('.' :: ['.', '.']) else symbol0) ++
    ('/' :: []) ++
    (if (symbol1.length : Int) > len1 then jsSliceTo symbol1 len1 ++ ('.' :: ['.', '.']) else symbol1)

/-- The truncation rule as amended: 6 characters reserved for the ellipses,
the FIRST half of the remaining budget rounded down and the second half
taking the rest (rounded up); a symbol is cut and given an ellipsis exactly
when it is strictly longer than its allotment. -/
def amendedTruncPair (symbol0 symbol1 : Str) (budget : Nat) : Str :=
  let available := budget - 6
  let len0 := available / 2
  let len1 := available - len0
  (if len0 < symbol0.length then symbol0.take len0 ++ ('.' :: ['.', '.']) else symbol0) ++
    ('/' :: []) ++
    (if len1 < symbol1.length then symbol1.take len1 ++ ('.' :: ['.', '.']) else symbol1)

/-! ## Sample data for witnesses and counterexamples -/

def tokA : Token := ⟨"0xaaa".toList, "Wrapped Ether".toList, "WETH".toList, "18".toList⟩

def tokB : Token := ⟨"0xbbb".toList, "USD Coin".toList, "USDC".toList, "6".toList⟩

def tokEvil : Token := ⟨"0xccc".toList, "Evil <script> Token".toList, "EVIL".toList, "18".toList⟩

/-- Sample valid pool. -/
def poolA : Pool :=
  ⟨"0xabc".toList, "3000".toList, "1".toList, "1".toList, some ("60".toList), 100,
    some tokA, some tokB⟩

/-- Sample pool whose oversized tick-spacing string makes the metadata
suffix alone overflow the 50-character budget. -/
def poolBad : Pool :=
  ⟨"0xbad".toList, "3000".toList, "1".toList, "1".toList,
    some (List.replicate 40 'T'), 100, some tokA, some tokB⟩

/-- Sample pool with the empty fee-tier string. -/
def poolNoFee : Pool :=
  ⟨"0xdef".toList, [], "1".toList, "1".toList, some ("60".toList), 100,
    some tokA, some tokB⟩

/-- Sample pool whose `token1` sub-record is absent. -/
def poolMissing : Pool :=
  ⟨"0xmm".toList, "500".toList, "1".toList, "1".toList, none, 150, some tokA, none⟩

/-- Sample pool with a markup-bearing token name. -/
def poolMarkup : Pool :=
  ⟨"0xev".toList, "500".toList, "1".toList, "1".toList, some ("10".toList), 200,
    some tokEvil, some tokB⟩

/-! ## Label-builder lemmas -/

theorem jsSliceTo_nonneg (s : Str) (e : Int) (h : 0 ≤ e) :
    jsSliceTo s e = s.take e.toNat := by
  rw [jsSliceTo, if_neg (not_lt.mpr h)]

theorem clamp50_length (t : Str) : (clamp50 t).length ≤ 50 := by
  rw [clamp50]
  split
  · rw [jsSliceTo_nonneg t 50 (by norm_num)]
    simp [List.length_take]
  · omega

theorem clamp50_eq_self (t : Str) (h : t.length ≤ 50) : clamp50 t = t := by
  rw [clamp50, if_neg (by omega)]

theorem buildLabel_length_le (s0 s1 sfx : Str) : (buildLabel s0 s1 sfx).length ≤ 50 := by
  simp only [buildLabel]
  exact clamp50_length _

/-- In the in-budget regime the code's truncation agrees with the amended
split: first half rounded down, second half taking the remainder. -/
theorem truncPair_eq_amended (s0 s1 : Str) (m : Int) (hm : 6 ≤ m) :
    truncPair s0 s1 m = amendedTruncPair s0 s1 m.toNat := by
  have h2 : (0 : Int) ≤ 2 := by norm_num
  simp only [truncPair, amendedTruncPair]
  have hl0 : Int.fdiv (m - 6) 2 = (((m.toNat - 6) / 2 : Nat) : Int) := by
    rw [Int.fdiv_eq_ediv _ h2]; omega
  rw [hl0]
  have hl1 : m - 6 - (((m.toNat - 6) / 2 : Nat) : Int) =
      ((m.toNat - 6 - (m.toNat - 6) / 2 : Nat) : Int) := by omega
  rw [hl1]
  have e0 : jsSliceTo s0 (((m.toNat - 6) / 2 : Nat) : Int) = s0.take ((m.toNat - 6) / 2) := by
    rw [jsSliceTo_nonneg _ _ (by positivity), Int.toNat_natCast]
  have e1 : jsSliceTo s1 ((m.toNat - 6 - (m.toNat - 6) / 2 : Nat) : Int) =
      s1.take (m.toNat - 6 - (m.toNat - 6) / 2) := by
    rw [jsSliceTo_nonneg _ _ (by positivity), Int.toNat_natCast]
  rw [e0, e1]
  simp only [gt_iff_lt, Nat.cast_lt]

theorem amendedTruncPair_length (s0 s1 : Str) (b : Nat) (hb : 6 ≤ b) :
    (amendedTruncPair s0 s1 b).length ≤ b + 1 := by
  simp only [amendedTruncPair]
  split <;> split <;> simp [List.length_take] <;> omega

/-- C1 helper lifted to the transformer: every transformed tag's label is a
`buildLabel` result. -/
theorem mem_transform (chainId : Str) (pools : List Pool) (tag : ContractTag)
    (h : tag ∈ transformPoolsToTags chainId pools) :
    ∃ pool, pool ∈ (partitionPools pools).1 ∧ tag = poolToTag chainId pool := by
  rw [transformPoolsToTags, List.mem_map] at h
  obtain ⟨pool, hp, he⟩ := h
  exact ⟨pool, hp, he.symm⟩

theorem poolToTag_label (chainId : Str) (pool : Pool) :
    (poolToTag chainId pool).publicNameTag =
      buildLabel (pool.token0.getD dfltToken).symbol (pool.token1.getD dfltToken).symbol
        (labelSuffix pool) := rfl

/-- Whenever the metadata suffix leaves a nonnegative truncation budget, the
built label ends with the complete suffix. -/
theorem buildLabel_suffix_of_le (s0 s1 sfx : Str) (hs : sfx.length ≤ 43) :
    sfx <:+ buildLabel s0 s1 sfx := by
  simp only [buildLabel]
  split
  · rw [truncPair_eq_amended s0 s1 _ (by omega)]
    rw [clamp50_eq_self]
    · exact List.suffix_append _ _
    · have := amendedTruncPair_length s0 s1 ((50 - (sfx.length : Int) - 1).toNat) (by omega)
      simp only [List.length_append]
      omega
  · rw [clamp50_eq_self]
    · exact List.suffix_append _ _
    · rename_i hlt
      simp only [not_lt] at hlt
      simp only [List.length_append, List.length_cons] at hlt ⊢
      omega

/-! ## Transformer lemmas -/

theorem partitionPools_spec (pools : List Pool) :
    (partitionPools pools).1 = pools.filter keepPool ∧
    (partitionPools pools).2 = pools.flatMap diagEntries := by
  induction pools with
  | nil => exact ⟨rfl, rfl⟩
  | cons pool rest ih =>
    obtain ⟨ih1, ih2⟩ := ih
    cases h0 : pool.token0 with
    | none =>
      simp [partitionPools, keepPool, diagEntries, h0, List.filter_cons, ih1, ih2]
    | some t0 =>
      cases h1 : pool.token1 with
      | none =>
        simp [partitionPools, keepPool, diagEntries, h0, h1, List.filter_cons, ih1, ih2]
      | some t1 =>
        cases hiv0 : tokenInvalid t0 <;> cases hiv1 : tokenInvalid t1 <;>
          simp [partitionPools, keepPool, diagEntries, h0, h1, hiv0, hiv1,
            List.filter_cons, ih1, ih2]

theorem partitionPools_fst_sublist (pools : List Pool) :
    (partitionPools pools).1.Sublist pools := by
  rw [(partitionPools_spec pools).1]
  exact List.filter_sublist pools

/-! ## Pagination-driver lemmas -/

theorem dedupGo_fst (ts : List ContractTag) :
    ∀ seen, (dedupGo seen ts).1 = firstWins seen ts := by
  induction ts with
  | nil => intro seen; rfl
  | cons t ts ih =>
    intro seen
    by_cases h : t.contractAddress ∈ seen <;> simp [dedupGo, firstWins, h, ih]

theorem dedupGo_append (xs ys : List ContractTag) :
    ∀ seen, dedupGo seen (xs ++ ys) =
      ((dedupGo seen xs).1 ++ (dedupGo (dedupGo seen xs).2 ys).1,
        (dedupGo (dedupGo seen xs).2 ys).2) := by
  induction xs with
  | nil => intro seen; simp [dedupGo]
  | cons x xs ih =>
    intro seen
    by_cases h : x.contractAddress ∈ seen <;> simp [dedupGo, h, ih]

theorem dedupGo_sublist (ts : List ContractTag) :
    ∀ seen, (dedupGo seen ts).1.Sublist ts := by
  induction ts with
  | nil => intro seen; simp [dedupGo]
  | cons t ts ih =>
    intro seen
    by_cases h : t.contractAddress ∈ seen
    · simp only [dedupGo, if_pos h]
      exact (ih seen).cons t
    · simp only [dedupGo, if_neg h]
      exact (ih _).cons₂ t

theorem dedupGo_nodup (ts : List ContractTag) :
    ∀ seen, ((dedupGo seen ts).1.map ContractTag.contractAddress).Nodup ∧
      ∀ a ∈ (dedupGo seen ts).1.map ContractTag.contractAddress, a ∉ seen := by
  induction ts with
  | nil => intro seen; simp [dedupGo]
  | cons t ts ih =>
    intro seen
    by_cases h : t.contractAddress ∈ seen
    · simp only [dedupGo, if_pos h]
      exact ih seen
    · simp only [dedupGo, if_neg h, List.map_cons, List.nodup_cons]
      obtain ⟨ihn, ihs⟩ := ih (t.contractAddress :: seen)
      refine ⟨⟨fun hmem => ?_, ihn⟩, ?_⟩
      · exact (ihs _ hmem) (List.mem_cons_self _ _)
      · intro a ha
        rcases List.mem_cons.mp ha with rfl | ha2
        · exact h
        · exact fun hseen => (ihs a ha2) (List.mem_cons_of_mem _ hseen)

theorem runLoop_spec (chainId : Str) :
    ∀ (responses : List (List Pool)) (cursor : Nat) (seen : List Str)
      (acc tags : List ContractTag) (calls : Nat) (curs : List Nat),
      runLoop chainId responses cursor seen acc = some (tags, calls, curs) →
      tags = acc ++
        (dedupGo seen ((responses.take calls).flatMap (transformPoolsToTags chainId))).1 := by
  intro responses
  induction responses with
  | nil => intro _ _ _ _ _ _ h; simp [runLoop] at h
  | cons pools rest ih =>
    intro cursor seen acc tags calls curs h
    simp only [runLoop] at h
    by_cases hlen : pools.length = 1000
    · rw [if_pos hlen] at h
      cases hrec : runLoop chainId rest (lastTs pools)
          (dedupGo seen (transformPoolsToTags chainId pools)).2
          (acc ++ (dedupGo seen (transformPoolsToTags chainId pools)).1) with
      | none => rw [hrec] at h; simp at h
      | some r =>
        obtain ⟨tags2, calls2, curs2⟩ := r
        rw [hrec] at h
        simp only [Option.some.injEq, Prod.mk.injEq] at h
        obtain ⟨h1, h2, h3⟩ := h
        subst h1 h2 h3
        have hih := ih _ _ _ _ _ _ hrec
        rw [hih, List.take_succ_cons, List.flatMap_cons, dedupGo_append, List.append_assoc]
    · rw [if_neg hlen] at h
      simp only [Option.some.injEq, Prod.mk.injEq] at h
      obtain ⟨h1, h2, h3⟩ := h
      subst h1 h2 h3
      simp

theorem runLoop_pages (chainId : Str) :
    ∀ (front : List (List Pool)) (lastPage : List Pool) (cursor : Nat)
      (seen : List Str) (acc : List ContractTag),
      (∀ p ∈ front, p.length = 1000) → lastPage.length < 1000 →
      ∃ tags, runLoop chainId (front ++ [lastPage]) cursor seen acc =
        some (tags, front.length + 1, cursor :: front.map lastTs) := by
  intro front
  induction front with
  | nil =>
    intro lastPage cursor seen acc _ hlast
    refine ⟨acc ++ (dedupGo seen (transformPoolsToTags chainId lastPage)).1, ?_⟩
    simp only [List.nil_append, runLoop, if_neg (by omega : ¬ lastPage.length = 1000)]
    rfl
  | cons p front ih =>
    intro lastPage cursor seen acc hfull hlast
    obtain ⟨tags, hrec⟩ := ih lastPage (lastTs p)
      (dedupGo seen (transformPoolsToTags chainId p)).2
      (acc ++ (dedupGo seen (transformPoolsToTags chainId p)).1)
      (fun q hq => hfull q (List.mem_cons_of_mem _ hq)) hlast
    refine ⟨tags, ?_⟩
    simp only [List.cons_append, runLoop, if_pos (hfull p (List.mem_cons_self _ _)),
      List.append_eq]
    rw [hrec]
    simp [List.length_cons]

theorem returnTags_ok_runLoop (chainId apiKey : Str) (responses : List (List Pool))
    (tags : List ContractTag) (calls : Nat) (curs : List Nat)
    (h : returnTags chainId apiKey responses = RTResult.ok tags calls curs) :
    runLoop chainId responses 0 [] [] = some (tags, calls, curs) := by
  rw [returnTags] at h
  by_cases hc : jsNumber42161 chainId = true
  · rw [if_pos hc] at h
    by_cases hk : apiKey = []
    · rw [if_pos hk] at h; cases h
    · rw [if_neg hk] at h
      cases hr : runLoop chainId responses 0 [] [] with
      | none => rw [hr] at h; simp at h
      | some r =>
        obtain ⟨a, b, c⟩ := r
        rw [hr] at h
        simp only [RTResult.ok.injEq] at h
        obtain ⟨h1, h2, h3⟩ := h
        subst h1 h2 h3
        rfl
  · rw [if_neg hc] at h; cases h

/-! ## Numeric-model lemmas -/

theorem DecNum.toRat_div10000 (d : DecNum) : d.div10000.toRat = d.toRat / 10000 := by
  unfold DecNum.toRat DecNum.div10000
  rw [zpow_sub₀ (by norm_num : (10 : ℚ) ≠ 0)]
  have h4 : (10 : ℚ) ^ (4 : ℤ) = 10000 := by norm_num
  rw [h4]
  ring

theorem DecNum.toFixed2_shape (d : DecNum) :
    ∃ pre d1 d2, d.toFixed2 = pre ++ ('.' :: [d1, d2]) := by
  refine ⟨(if d.neg ∧ d.mant ≠ 0 then ['-'] else []) ++ natToDigits (d.hundredths / 100),
    Nat.digitChar (d.hundredths % 100 / 10), Nat.digitChar (d.hundredths % 100 % 10), ?_⟩
  simp [DecNum.toFixed2, twoDigits, List.append_assoc]

theorem DecNum.abs_toRat (d : DecNum) : |d.toRat| = (d.mant : ℚ) * (10 : ℚ) ^ d.exp := by
  have hpow : (0 : ℚ) < (10 : ℚ) ^ d.exp := zpow_pos (by norm_num) _
  cases hn : d.neg <;>
    simp [DecNum.toRat, hn, abs_mul, abs_of_pos hpow, abs_of_nonneg, Nat.cast_nonneg]

/-- The hundredths integer of the model is exactly
`⌊|x| * 100 + 1/2⌋` (nearest hundredth, ties up on the magnitude). -/
theorem DecNum.hundredths_eq (d : DecNum) :
    d.hundredths = Nat.floor (|d.toRat| * 100 + 1 / 2) := by
  unfold DecNum.hundredths
  by_cases he : 0 ≤ d.exp + 2
  · rw [if_pos he]
    have hcast : (10 : ℚ) ^ d.exp * 100 = (10 : ℚ) ^ (((d.exp + 2).toNat : ℕ) : ℤ) := by
      rw [Int.toNat_of_nonneg he, zpow_add₀ (by norm_num : (10 : ℚ) ≠ 0)]
      norm_num
    have h100 : |d.toRat| * 100 = ((d.mant * 10 ^ (d.exp + 2).toNat : ℕ) : ℚ) := by
      rw [DecNum.abs_toRat, mul_assoc, hcast, zpow_natCast]
      push_cast
      ring
    rw [h100, add_comm (((d.mant * 10 ^ (d.exp + 2).toNat : ℕ) : ℚ)) (1 / 2),
      Nat.floor_add_nat (by norm_num : (0 : ℚ) ≤ 1 / 2)]
    norm_num
  · rw [if_neg he]
    have hpow : (10 : ℚ) ^ d.exp * 100 = ((10 : ℚ) ^ (-(d.exp + 2)).toNat)⁻¹ := by
      have h1 : (10 : ℚ) ^ d.exp * 100 = (10 : ℚ) ^ (d.exp + 2) := by
        rw [zpow_add₀ (by norm_num : (10 : ℚ) ≠ 0)]
        norm_num
      rw [h1, ← zpow_natCast (10 : ℚ) (-(d.exp + 2)).toNat, ← zpow_neg]
      congr 1
      omega
    have h10k : ((10 : ℚ) ^ (-(d.exp + 2)).toNat) ≠ 0 := by positivity
    have heq : |d.toRat| * 100 + 1 / 2 =
        ((2 * d.mant + 10 ^ (-(d.exp + 2)).toNat : ℕ) : ℚ) /
          ((2 * 10 ^ (-(d.exp + 2)).toNat : ℕ) : ℚ) := by
      rw [DecNum.abs_toRat, mul_assoc, hpow]
      push_cast
      field_simp
      ring
    rw [heq, Nat.floor_div_nat, Nat.floor_natCast]

/-- If the strict-equality model accepts `n`, the value really is `n`. -/
theorem DecNum.eqNat_sound (d : DecNum) (n : Nat) (h : d.eqNat n = true) :
    d.toRat = n := by
  unfold DecNum.eqNat at h
  rw [Bool.and_eq_true] at h
  obtain ⟨hmag, hneg⟩ := h
  rw [Bool.or_eq_true, Bool.not_eq_true', beq_iff_eq] at hneg
  by_cases he : 0 ≤ d.exp
  · rw [if_pos he, beq_iff_eq] at hmag
    rcases hneg with hfalse | hm0
    · rw [DecNum.toRat, hfalse]
      have hexp : d.exp = ((d.exp.toNat : ℕ) : ℤ) := (Int.toNat_of_nonneg he).symm
      rw [hexp, zpow_natCast, ← hmag]
      push_cast
      ring
    · rw [DecNum.toRat, hm0]
      rw [hm0, Nat.zero_mul] at hmag
      rw [← hmag]
      simp
  · rw [if_neg he, beq_iff_eq] at hmag
    have hk : d.exp = -((((-d.exp).toNat : ℕ)) : ℤ) := by omega
    have h10k : ((10 : ℚ) ^ (-d.exp).toNat) ≠ 0 := by positivity
    rcases hneg with hfalse | hm0
    · rw [DecNum.toRat, hfalse, hk, zpow_neg, zpow_natCast, ← hmag]
      push_cast
      field_simp
    · rw [hm0] at hmag
      have hpos : 0 < 10 ^ (-d.exp).toNat := Nat.pos_pow_of_pos _ (by norm_num)
      have hn0 : n = 0 := by
        rcases Nat.mul_eq_zero.mp hmag with h | h
        · exact h
        · omega
      rw [DecNum.toRat, hm0, hn0]
      simp

/-! ## Claim theorems -/

/-- C1: for every chain id and every list of raw pool records, every tag
produced by the transformation — and hence every tag returned by a
successful `returnTags` run — has a Public Name Tag of length at most 50,
regardless of the token-symbol, fee-tier and tick-spacing string lengths. -/
theorem tag_label_length_le_50 :
    (∀ chainId pools tag, tag ∈ transformPoolsToTags chainId pools →
      tag.publicNameTag.length ≤ 50) ∧
    (∀ chainId apiKey responses tags calls curs,
      returnTags chainId apiKey responses = RTResult.ok tags calls curs →
      ∀ tag ∈ tags, tag.publicNameTag.length ≤ 50) := by
  have htrans : ∀ chainId pools tag, tag ∈ transformPoolsToTags chainId pools →
      tag.publicNameTag.length ≤ 50 := by
    intro chainId pools tag h
    obtain ⟨pool, hmem, rfl⟩ := mem_transform chainId pools tag h
    rw [poolToTag_label]
    exact buildLabel_length_le _ _ _
  refine ⟨htrans, ?_⟩
  intro chainId apiKey responses tags calls curs h tag htag
  have hrun := returnTags_ok_runLoop _ _ _ _ _ _ h
  have hspec := runLoop_spec chainId responses 0 [] [] tags calls curs hrun
  rw [List.nil_append] at hspec
  subst hspec
  have hsub := dedupGo_sublist ((responses.take calls).flatMap (transformPoolsToTags chainId)) []
  have hmem2 := hsub.subset htag
  rw [List.mem_flatMap] at hmem2
  obtain ⟨page, hpg, htg⟩ := hmem2
  exact htrans chainId page tag htg

/-- C1 witness at a concrete pool. -/
theorem tag_label_length_le_50_witness :
    poolToTag ("42161".toList) poolA ∈ transformPoolsToTags ("42161".toList) [poolA] ∧
    (poolToTag ("42161".toList) poolA).publicNameTag.length ≤ 50 :=
  ⟨by decide, tag_label_length_le_50.1 ("42161".toList) [poolA]
    (poolToTag ("42161".toList) poolA) (by decide)⟩

/-- C2: the tags of a successful `returnTags` run have pairwise distinct
Contract Addresses; they are exactly the first-occurrence-wins dedup of the
transformed record stream of the consumed pages (later duplicates silently
dropped), and they keep the stream's relative order (a sublist — stable,
not re-sorted). -/
theorem returnTags_dedup_first_wins (chainId apiKey : Str)
    (responses : List (List Pool)) (tags : List ContractTag) (calls : Nat) (curs : List Nat)
    (h : returnTags chainId apiKey responses = RTResult.ok tags calls curs) :
    (tags.map ContractTag.contractAddress).Nodup ∧
    tags = firstWins [] ((responses.take calls).flatMap (transformPoolsToTags chainId)) ∧
    tags.Sublist ((responses.take calls).flatMap (transformPoolsToTags chainId)) := by
  have hrun := returnTags_ok_runLoop _ _ _ _ _ _ h
  have hspec := runLoop_spec chainId responses 0 [] [] tags calls curs hrun
  rw [List.nil_append] at hspec
  subst hspec
  exact ⟨(dedupGo_nodup _ _).1, dedupGo_fst _ _, dedupGo_sublist _ _⟩

/-- C2 witness: a page containing the same record twice yields its tag
exactly once. -/
theorem returnTags_dedup_first_wins_witness :
    returnTags ("42161".toList) ("key".toList) [[poolA, poolA]] =
      RTResult.ok [poolToTag ("42161".toList) poolA] 1 [0] ∧
    (([poolToTag ("42161".toList) poolA].map ContractTag.contractAddress).Nodup ∧
      [poolToTag ("42161".toList) poolA] =
        firstWins [] (([[poolA, poolA]].take 1).flatMap (transformPoolsToTags ("42161".toList))) ∧
      [poolToTag ("42161".toList) poolA].Sublist
        (([[poolA, poolA]].take 1).flatMap (transformPoolsToTags ("42161".toList)))) :=
  ⟨by decide, returnTags_dedup_first_wins ("42161".toList) ("key".toList) [[poolA, poolA]]
    [poolToTag ("42161".toList) poolA] 1 [0] (by decide)⟩

/-- C3 counterexample: at the spec's own boundary example (symbols
`EXTREMELYLONGTOKENNAME` and `ANOTHERLONGNAME`, budget 23, remaining budget
17), the code keeps `⌊17/2⌋ = 8` characters of the FIRST symbol (rounded
down) and 9 of the second, while the claim's formula (first half rounded up)
predicts 9 and 8, so the built label differs from the claim's prediction. -/
theorem truncation_split_counterexample :
    buildLabel ("EXTREMELYLONGTOKENNAME".toList) ("ANOTHERLONGNAME".toList)
        (" CL Pool (0.30%, tick: 60)".toList) =
      ("EXTREMEL.../ANOTHERLO... CL Pool (0.30%, tick: 60)".toList) ∧
    claimTruncPair ("EXTREMELYLONGTOKENNAME".toList) ("ANOTHERLONGNAME".toList) 23 ++
        (" CL Pool (0.30%, tick: 60)".toList) =
      ("EXTREMELY.../ANOTHERL... CL Pool (0.30%, tick: 60)".toList) ∧
    buildLabel ("EXTREMELYLONGTOKENNAME".toList) ("ANOTHERLONGNAME".toList)
        (" CL Pool (0.30%, tick: 60)".toList) ≠
      claimTruncPair ("EXTREMELYLONGTOKENNAME".toList) ("ANOTHERLONGNAME".toList) 23 ++
        (" CL Pool (0.30%, tick: 60)".toList) :=
  ⟨by decide, by decide, by decide⟩

/-- C3 (amended): when the suffix leaves a nonnegative remaining budget and
the symbol pair overflows it, the label equals the amended proportional
truncation — 6 characters reserved for ellipses, FIRST half rounded DOWN,
second half taking the rest — followed by the suffix; an ellipsis is
appended to a symbol exactly when it is strictly longer than its
allotment. -/
theorem truncation_split_amended (s0 s1 sfx : Str) (hs : sfx.length ≤ 43)
    (hover : 49 - sfx.length < s0.length + 1 + s1.length) :
    buildLabel s0 s1 sfx = amendedTruncPair s0 s1 (49 - sfx.length) ++ sfx := by
  have hc : ((s0 ++ ('/' :: []) ++ s1).length : Int) > 50 - (sfx.length : Int) - 1 := by
    simp only [List.length_append, List.length_cons, List.length_nil]
    omega
  simp only [buildLabel]
  rw [if_pos hc, truncPair_eq_amended s0 s1 _ (by omega)]
  have htn : (50 - (sfx.length : Int) - 1).toNat = 49 - sfx.length := by omega
  rw [htn]
  apply clamp50_eq_self
  have := amendedTruncPair_length s0 s1 (49 - sfx.length) (by omega)
  simp only [List.length_append]
  omega

/-- C3 witness for the amended truncation rule at the boundary example. -/
theorem truncation_split_amended_witness :
    ((" CL Pool (0.30%, tick: 60)".toList : Str).length ≤ 43 ∧
      49 - (" CL Pool (0.30%, tick: 60)".toList : Str).length <
        ("EXTREMELYLONGTOKENNAME".toList : Str).length + 1 +
          ("ANOTHERLONGNAME".toList : Str).length) ∧
    buildLabel ("EXTREMELYLONGTOKENNAME".toList) ("ANOTHERLONGNAME".toList)
        (" CL Pool (0.30%, tick: 60)".toList) =
      amendedTruncPair ("EXTREMELYLONGTOKENNAME".toList) ("ANOTHERLONGNAME".toList)
          (49 - (" CL Pool (0.30%, tick: 60)".toList : Str).length) ++
        (" CL Pool (0.30%, tick: 60)".toList) :=
  ⟨⟨by decide, by decide⟩, truncation_split_amended _ _ _ (by decide) (by decide)⟩

/-- C4 counterexample: the empty fee-tier string is falsy in the source's
conditional, so the fee component is the empty string — with no trailing
`%` — rather than a formatted percentage. -/
theorem getFeePct_empty_counterexample :
    getFeePct poolNoFee = [] ∧ (getFeePct poolNoFee).getLast? ≠ some '%' :=
  ⟨by decide, by decide⟩

/-- C4 (amended): for a NON-empty fee-tier string that parses as a number,
the fee component is the parsed value divided by 10000 (the decimal-model
division agreeing with rational division), rendered with a `.` followed by
exactly two fraction digits (the hundredths integer being
`⌊|value/10000| * 100 + 1/2⌋`) and a trailing `%`; a non-empty non-numeric
string yields `NaN%`; the empty string yields the empty string. -/
theorem getFeePct_amended (pool : Pool) (d : DecNum) :
    (pool.feeTier ≠ [] → parseFloatD pool.feeTier = some d →
      getFeePct pool = d.div10000.toFixed2 ++ ('%' :: []) ∧
      d.div10000.toRat = d.toRat / 10000 ∧
      d.div10000.hundredths = Nat.floor (|d.toRat / 10000| * 100 + 1 / 2) ∧
      ∃ pre d1 d2, getFeePct pool = pre ++ ('.' :: [d1, d2, '%'])) ∧
    (pool.feeTier ≠ [] → parseFloatD pool.feeTier = none →
      getFeePct pool = ('N' :: ['a', 'N', '%'])) ∧
    (pool.feeTier = [] → getFeePct pool = []) := by
  refine ⟨?_, ?_, ?_⟩
  · intro hne hparse
    have hval : getFeePct pool = d.div10000.toFixed2 ++ ('%' :: []) := by
      rw [getFeePct, if_neg hne, hparse]
    refine ⟨hval, DecNum.toRat_div10000 d, ?_, ?_⟩
    · rw [← DecNum.toRat_div10000]
      exact DecNum.hundredths_eq _
    · obtain ⟨pre, d1, d2, hsh⟩ := DecNum.toFixed2_shape d.div10000
      refine ⟨pre, d1, d2, ?_⟩
      rw [hval, hsh]
      simp
  · intro hne hparse
    rw [getFeePct, if_neg hne, hparse]
  · intro he
    rw [getFeePct, if_pos he]

/-- C4 witness at fee tier 3000 (rendered 0.30%). -/
theorem getFeePct_amended_witness :
    (poolA.feeTier ≠ [] ∧ parseFloatD poolA.feeTier = some ⟨false, 3000, 0⟩) ∧
    getFeePct poolA = (DecNum.div10000 ⟨false, 3000, 0⟩).toFixed2 ++ ('%' :: []) :=
  ⟨⟨by decide, by decide⟩,
    ((getFeePct_amended poolA ⟨false, 3000, 0⟩).1 (by decide) (by decide)).1⟩

/-- C5 counterexample: a pool whose tick-spacing string makes the metadata
suffix alone exceed 50 characters; the defensive clamp cuts into the
metadata, so the emitted label does not end with the suffix. -/
theorem suffix_truncated_counterexample :
    ¬ labelSuffix poolBad <:+ (poolToTag ("42161".toList) poolBad).publicNameTag ∧
    (labelSuffix poolBad).isSuffixOf
      ((poolToTag ("42161".toList) poolBad).publicNameTag) = false :=
  ⟨by decide, by decide⟩

/-- C5 (amended): whenever the metadata suffix leaves a nonnegative
truncation budget (suffix length at most 43), the emitted label ends with
the complete `" CL Pool (" ++ feePct ++ ", tick: " ++ tick ++ ")"` suffix,
with all shortening absorbed by the token symbols; and every transformed tag
is `poolToTag` of one of its page's records. -/
theorem suffix_preserved_amended :
    (∀ chainId pool, (labelSuffix pool).length ≤ 43 →
      labelSuffix pool <:+ (poolToTag chainId pool).publicNameTag) ∧
    (∀ chainId pools tag, tag ∈ transformPoolsToTags chainId pools →
      ∃ pool, pool ∈ pools ∧ tag = poolToTag chainId pool) := by
  constructor
  · intro chainId pool hs
    rw [poolToTag_label]
    exact buildLabel_suffix_of_le _ _ _ hs
  · intro chainId pools tag h
    obtain ⟨pool, hmem, he⟩ := mem_transform chainId pools tag h
    exact ⟨pool, (partitionPools_fst_sublist pools).subset hmem, he⟩

/-- C5 witness at a typical pool (suffix length 26). -/
theorem suffix_preserved_amended_witness :
    (labelSuffix poolA).length ≤ 43 ∧
    labelSuffix poolA <:+ (poolToTag ("42161".toList) poolA).publicNameTag :=
  ⟨by decide, suffix_preserved_amended.1 _ poolA (by decide)⟩

/-- C6 (code-bug evidence): the sanitizer's filter keeps the whole range
U+0002..U+007F, so the non-printable control character U+0003 survives
`cleanSymbol`, although both the claim and the source's own comments say
only printable ASCII is retained; the 64-hex round-trip path itself behaves
as claimed (a NUL-padded printable payload decodes back exactly). -/
theorem cleanSymbol_keeps_control_char :
    cleanSymbol ("ab".toList ++ [Char.ofNat 3] ++ "cd".toList) =
      "ab".toList ++ [Char.ofNat 3] ++ "cd".toList ∧
    Char.ofNat 3 ∈ cleanSymbol ("ab".toList ++ [Char.ofNat 3] ++ "cd".toList) ∧
    (Char.ofNat 3).toNat < 32 ∧
    cleanSymbol
        ("5745544800000000000000000000000000000000000000000000000000000000".toList) =
      "WETH".toList :=
  ⟨by decide, by decide, by decide, by decide⟩

/-- C7: the transformer keeps exactly the records with both token
sub-records present and no markup (mapping them to tags in order, so the
rest of the page is unaffected by rejections), logs one diagnostic entry per
markup-rejected token, and records nothing for a pool with an absent token
sub-record (that rejection is silent). -/
theorem transform_reject_policy (chainId : Str) (pools : List Pool) :
    transformPoolsToTags chainId pools = (pools.filter keepPool).map (poolToTag chainId) ∧
    rejectedNamesOf pools = pools.flatMap diagEntries ∧
    (∀ pool, pool.token0 = none ∨ pool.token1 = none →
      keepPool pool = false ∧ diagEntries pool = []) := by
  refine ⟨?_, (partitionPools_spec pools).2, ?_⟩
  · rw [transformPoolsToTags, (partitionPools_spec pools).1]
  · intro pool hp
    rcases hp with h | h
    · simp [keepPool, diagEntries, h]
    · cases ht0 : pool.token0 <;> simp [keepPool, diagEntries, h, ht0]

/-- C7 witness: a three-record page with one valid record, one record
missing `token1`, and one markup-rejected record. -/
theorem transform_reject_policy_witness :
    transformPoolsToTags ("42161".toList) [poolA, poolMissing, poolMarkup] =
      (([poolA, poolMissing, poolMarkup].filter keepPool).map (poolToTag ("42161".toList))) ∧
    (poolMissing.token0 = none ∨ poolMissing.token1 = none) ∧
    keepPool poolMissing = false ∧ diagEntries poolMissing = [] :=
  ⟨(transform_reject_policy ("42161".toList) [poolA, poolMissing, poolMarkup]).1,
    Or.inr (by decide),
    (transform_reject_policy ("42161".toList) [poolA, poolMissing, poolMarkup]).2.2
      poolMissing (Or.inr (by decide))⟩

/-- C8: `returnTags` fails fast before consuming any response: a chain id
whose `Number` conversion is not exactly 42161 fails with the
unsupported-chain error regardless of the credential (the chain check runs
first, as the empty-credential instance shows), and chain id `"42161"` with
an empty credential fails with the missing-credential error. -/
theorem returnTags_validation :
    (∀ chainId apiKey responses, jsNumber42161 chainId = false →
      returnTags chainId apiKey responses =
        RTResult.unsupportedChain (unsupportedMsg chainId)) ∧
    (∀ s d, jsNumberD s = some d → jsNumber42161 s = true → d.toRat = (42161 : ℚ)) ∧
    (∀ responses, returnTags ("1".toList) ("key".toList) responses =
      RTResult.unsupportedChain (unsupportedMsg ("1".toList))) ∧
    (∀ responses, returnTags ("42161".toList) [] responses = RTResult.missingApiKey) ∧
    (∀ responses, returnTags ("1".toList) [] responses =
      RTResult.unsupportedChain (unsupportedMsg ("1".toList))) := by
  have h1 : ∀ chainId apiKey responses, jsNumber42161 chainId = false →
      returnTags chainId apiKey responses =
        RTResult.unsupportedChain (unsupportedMsg chainId) := by
    intro chainId apiKey responses h
    rw [returnTags, if_neg (by simp [h])]
  refine ⟨h1, ?_, fun responses => h1 _ _ _ (by decide), ?_,
    fun responses => h1 _ _ _ (by decide)⟩
  · intro s d hd ht
    rw [jsNumber42161, hd] at ht
    rw [DecNum.eqNat_sound d 42161 ht]
    norm_num
  · intro responses
    rw [returnTags, if_pos (by decide), if_pos rfl]

/-- C8 witness: chain id 7 is rejected before any fetch; the accepted
encoding of the chain id denotes exactly 42161. -/
theorem returnTags_validation_witness :
    jsNumber42161 ("7".toList) = false ∧
    returnTags ("7".toList) ("key".toList) [] =
      RTResult.unsupportedChain (unsupportedMsg ("7".toList)) ∧
    jsNumberD ("42161".toList) = some ⟨false, 42161, 0⟩ ∧
    DecNum.toRat ⟨false, 42161, 0⟩ = (42161 : ℚ) :=
  ⟨by decide, returnTags_validation.1 ("7".toList) ("key".toList) [] (by decide),
    by decide,
    returnTags_validation.2.1 ("42161".toList) ⟨false, 42161, 0⟩ (by decide) (by decide)⟩

/-- C9: with a source delivering N full pages of 1000 records and then a
shorter page, a valid `returnTags` call fetches exactly N+1 times and then
terminates successfully; the first fetch uses cursor 0 and each subsequent
fetch uses the creation timestamp of the previous page's last record. -/
theorem pagination_calls_cursors (chainId apiKey : Str)
    (front : List (List Pool)) (lastPage : List Pool)
    (hchain : jsNumber42161 chainId = true) (hkey : apiKey ≠ [])
    (hfull : ∀ p ∈ front, p.length = 1000) (hlast : lastPage.length < 1000) :
    ∃ tags, returnTags chainId apiKey (front ++ [lastPage]) =
      RTResult.ok tags (front.length + 1) (0 :: front.map lastTs) := by
  obtain ⟨tags, h⟩ := runLoop_pages chainId front lastPage 0 [] [] hfull hlast
  refine ⟨tags, ?_⟩
  rw [returnTags, if_pos hchain, if_neg hkey, h]

/-- C9 witness: one full page of 1000 records then an empty page — exactly
two fetches, with cursors 0 and the full page's last timestamp. -/
theorem pagination_calls_cursors_witness :
    (∀ p ∈ [List.replicate 1000 poolA], p.length = 1000) ∧
    ([] : List Pool).length < 1000 ∧
    ∃ tags, returnTags ("42161".toList) ("key".toList)
        ([List.replicate 1000 poolA] ++ [([] : List Pool)]) =
      RTResult.ok tags ([List.replicate 1000 poolA].length + 1)
        (0 :: [List.replicate 1000 poolA].map lastTs) :=
  ⟨by intro p hp; rw [List.eq_of_mem_singleton hp, List.length_replicate], by simp,
    pagination_calls_cursors ("42161".toList) ("key".toList)
      [List.replicate 1000 poolA] [] (by decide) (by decide)
      (by intro p hp; rw [List.eq_of_mem_singleton hp, List.length_replicate]) (by simp)⟩

/-- URL pieces of the gateway endpoint. -/
def gatewayPre : Str := "https://gateway-arbitrum.network.thegraph.com/api/".toList

def gatewayPost : Str := "/subgraphs/id/ATQTt3wRTgXy4canCh6t1yeczAz4ZuEkFQL2mrLXEMyQ".toList

/-- The endpoint URL carrying the literal `[api-key]` placeholder. -/
def placeholderUrl : Str := gatewayPre ++ "[api-key]".toList ++ gatewayPost

set_option maxRecDepth 8192 in
/-- C10: the endpoint puts the literal `[api-key]` placeholder in the URL
when the credential is absent, empty, or exactly `"dummy"`, and the
credential verbatim otherwise; `"dummy"` passes the non-empty credential
check of `returnTags` yet never appears in the outbound URL. -/
theorem endpoint_placeholder :
    (∀ k : Option Str, k = none ∨ k = some [] ∨ k = some ("dummy".toList) →
      endpoint k = placeholderUrl) ∧
    (∀ s : Str, s ≠ [] → s ≠ "dummy".toList →
      endpoint (some s) = gatewayPre ++ s ++ gatewayPost) ∧
    ¬ "dummy".toList <:+: endpoint (some ("dummy".toList)) ∧
    (∀ responses, returnTags ("42161".toList) ("dummy".toList) responses ≠
      RTResult.missingApiKey) := by
  refine ⟨?_, ?_, by decide, ?_⟩
  · intro k hk
    rcases hk with rfl | rfl | rfl
    · rfl
    · rfl
    · rfl
  · intro s h1 h2
    simp only [endpoint]
    rw [if_neg (not_or.mpr ⟨h1, h2⟩)]
    rfl
  · intro responses
    rw [returnTags, if_pos (by decide), if_neg (by decide)]
    cases hm : runLoop ("42161".toList) responses 0 [] [] with
    | none => simp
    | some r =>
      obtain ⟨a, b, c⟩ := r
      simp

/-- C10 witness: a normal key appears verbatim; the key `"dummy"` maps to
the placeholder URL. -/
theorem endpoint_placeholder_witness :
    (("abc".toList : Str) ≠ [] ∧ ("abc".toList : Str) ≠ "dummy".toList ∧
      endpoint (some ("abc".toList)) = gatewayPre ++ "abc".toList ++ gatewayPost) ∧
    endpoint (some ("dummy".toList)) = placeholderUrl :=
  ⟨⟨by decide, by decide, endpoint_placeholder.2.1 _ (by decide) (by decide)⟩,
    endpoint_placeholder.1 (some ("dummy".toList)) (Or.inr (Or.inr rfl))⟩

end RamsesCL
